import Mathlib

/-!
# Verification of the resume-builder logic

A shallow embedding of the logic of
`src/resume-builder/components/ResumeBuilder.tsx`: the data model, the
suggestion-matching engine (`getSuggestedBullets`), the checklist
evaluator (the `checklist` memo and the `ChecklistPanel` summary), the
update-by-identifier handlers, the bullet-editing operations and the JSON
export, together with theorems checking the specification's claims
against those definitions.

Modelling conventions:
* JavaScript strings become `String`; `.trim()` becomes `jsTrim`, which
  removes leading/trailing characters satisfying `Char.isWhitespace`
  (the ASCII core of the JavaScript whitespace class); `.length` counts
  characters.
* The case-insensitive regular expressions of the suggestion library are
  alternations of literal words, two of them with a `\s*` gap inside
  (`full\s*stack`, `product\s*manager`); they are embedded as lists of
  alternatives, each alternative a list of literal pieces separated by
  zero-or-more whitespace.  Because every piece begins with a
  non-whitespace character, greedy whitespace skipping is equivalent to
  the regex semantics.
* `[...new Set(l)]` becomes `dedupFirst`, which keeps the first
  occurrence of each string.
* `JSON.stringify(v, null, 2)` becomes `renderJson`, a structural
  pretty-printer with two-space indentation, and the export round-trip
  is checked against `parseJsonText`, an executable JSON reader.
-/

/-! ## Data model (the `type` declarations at the top of the source) -/

structure PersonalInfo where
  fullName : String
  headline : String
  email : String
  phone : String
  location : String
  website : String
  linkedin : String
  summary : String
deriving Repr, DecidableEq

structure Experience where
  id : String
  role : String
  company : String
  location : String
  startDate : String
  endDate : String
  bullets : List String
deriving Repr, DecidableEq

structure Education where
  id : String
  school : String
  degree : String
  startDate : String
  endDate : String
  details : String
  location : String
deriving Repr, DecidableEq

structure Project where
  id : String
  name : String
  description : String
  link : String
  highlights : List String
deriving Repr, DecidableEq

structure SkillBlock where
  id : String
  label : String
  items : String
deriving Repr, DecidableEq

structure ChecklistItem where
  id : String
  label : String
  required : Bool
  satisfied : Bool
  tips : List String
deriving Repr, DecidableEq

/-- The root aggregate: the five state variables of `ResumeBuilder`
(`personal`, `experiences`, `educations`, `projects`, `skills`),
the "ResumeDocument" of the specification. -/
structure ResumeDocument where
  personal : PersonalInfo
  experiences : List Experience
  educations : List Education
  projects : List Project
  skills : List SkillBlock
deriving Repr, DecidableEq

/-! ## JavaScript string trimming -/

/-- `l.trim()` on the character list: drop leading whitespace, then drop
trailing whitespace (via reverse). -/
def trimChars (cs : List Char) : List Char :=
  (((cs.dropWhile Char.isWhitespace).reverse.dropWhile Char.isWhitespace)).reverse

/-- JavaScript `String.prototype.trim`. -/
def jsTrim (s : String) : String := String.mk (trimChars s.data)

/-! ## Suggestion engine (`roleSuggestionLibrary`, `getSuggestedBullets`) -/

/-- One entry of the suggestion library: a pattern (an alternation of
sequences of literal pieces, every two consecutive pieces separated by
`\s*`) and its ordered bullet group. -/
structure SuggestionEntry where
  pattern : List (List String)
  bullets : List String
deriving Repr, DecidableEq

/-- Match an alternative (its pieces already lowercased, as character
lists) at the current position: each piece must be a prefix, with any
run of whitespace skipped between consecutive pieces (`\s*`). -/
def altMatchAt : List (List Char) → List Char → Bool
  | [], _ => true
  | p :: ps, cs =>
      p.isPrefixOf cs && altMatchAt ps ((cs.drop p.length).dropWhile Char.isWhitespace)

/-- Does `f` hold of some suffix of the list?  (A regular expression with
no anchor may match starting at any position.) -/
def anySuffix (f : List Char → Bool) : List Char → Bool
  | [] => f []
  | c :: cs => f (c :: cs) || anySuffix f cs

/-- `pattern.test(s)` for the embedded pattern class: lowercase the
input (the `/i` flag) and look for a starting position where some
alternative matches. -/
def patternTest (pat : List (List String)) (s : String) : Bool :=
  pat.any fun alt => anySuffix (altMatchAt (alt.map String.data)) (s.data.map Char.toLower)

def softwareTrackBullets : List String :=
  ["Designed and shipped responsive interfaces with React, TypeScript, and modern CSS tooling.",
   "Collaborated with cross-functional partners to ship features that unblocked revenue-critical workflows.",
   "Instrumented analytics and alerting that reduced production issues and improved deployment confidence."]

def productTrackBullets : List String :=
  ["Defined product strategy by synthesizing user research, analytics, and stakeholder interviews.",
   "Launched iterative experiments that increased activation and retention across the customer lifecycle.",
   "Prioritized developer time through a discovery-to-delivery framework grounded in measurable outcomes."]

def designTrackBullets : List String :=
  ["Crafted accessible design systems with documented patterns and component libraries.",
   "Conducted moderated usability sessions that surfaced critical workflow friction.",
   "Partnered with engineers to validate interaction fidelity and deliver pixel-perfect implementations."]

def dataTrackBullets : List String :=
  ["Delivered end-to-end data products leveraging Python, SQL, and BI tooling to answer high-impact questions.",
   "Built predictive models that increased operational efficiency and informed strategic decisions.",
   "Implemented automated data quality monitors that strengthened trust in dashboards and reports."]

/-- The fixed, ordered suggestion library.  The patterns transcribe the
four case-insensitive regular expressions of the source. -/
def roleSuggestionLibrary : List SuggestionEntry :=
  [⟨[["software"], ["full", "stack"], ["backend"], ["frontend"], ["web"],
     ["developer"], ["engineer"]], softwareTrackBullets⟩,
   ⟨[["product", "manager"], ["pm"], ["product lead"]], productTrackBullets⟩,
   ⟨[["designer"], ["ux"], ["ui"]], designTrackBullets⟩,
   ⟨[["data"], ["analytics"], ["science"]], dataTrackBullets⟩]

/-- The fixed generic fallback group declared inside `getSuggestedBullets`. -/
def genericBullets : List String :=
  ["Partnered with stakeholders to prioritize initiatives by impact and effort.",
   "Applied measurable goals to track success and iterate quickly on feedback.",
   "Mentored teammates and strengthened team operating rituals to raise the quality bar."]

/-- First-occurrence de-duplication with an accumulator of already seen
strings: the semantics of `[...new Set(l)]`. -/
def dedupAux (seen : List String) : List String → List String
  | [] => []
  | x :: xs => if seen.contains x then dedupAux seen xs else x :: dedupAux (x :: seen) xs

/-- `[...new Set(l)]`: keep the first occurrence of each string. -/
def dedupFirst (l : List String) : List String := dedupAux [] l

/-- `getSuggestedBullets(role, summary)`: concatenate the bullet groups
of the library entries whose pattern matches the role text or the
summary text, append the generic fallback group, and de-duplicate. -/
def getSuggestedBullets (role summary : String) : List String :=
  let libraryMatches :=
    (roleSuggestionLibrary.filter fun entry =>
        patternTest entry.pattern role || patternTest entry.pattern summary).flatMap
      fun entry => entry.bullets
  dedupFirst (libraryMatches ++ genericBullets)

/-! ## Checklist evaluator (the `checklist` memo, lines 485–544) -/

/-- The ordered five-item checklist computed from the document.  Each
`satisfied` transcribes the corresponding predicate of the source
(`.trim().length > 0` comparisons, `some` over lists). -/
def checklist (doc : ResumeDocument) : List ChecklistItem :=
  [{ id := "contact",
     label := "Contact section is complete",
     required := true,
     satisfied :=
       decide (0 < (jsTrim doc.personal.fullName).length) &&
       decide (0 < (jsTrim doc.personal.headline).length) &&
       decide (0 < (jsTrim doc.personal.email).length) &&
       decide (0 < (jsTrim doc.personal.location).length),
     tips := ["Include full name, role headline, and location.",
              "Add best contact email and optional phone number."] },
   { id := "summary",
     label := "Include a focused summary",
     required := false,
     satisfied := decide (60 < (jsTrim doc.personal.summary).length),
     tips := ["Write 2–3 concise sentences highlighting domain expertise.",
              "Reference years of experience and a core differentiator."] },
   { id := "experience",
     label := "At least one experience entry has impact bullets",
     required := true,
     satisfied := doc.experiences.any fun exp => decide (3 ≤ exp.bullets.length),
     tips := ["Aim for 3+ quantified bullets per recent role.",
              "Start each bullet with strong action verbs."] },
   { id := "education",
     label := "Education contains degree or certification",
     required := false,
     satisfied := doc.educations.any fun edu =>
       decide (0 < (jsTrim edu.degree).length) || decide (0 < (jsTrim edu.details).length),
     tips := ["List degree, major, and graduation year.",
              "Add standout coursework, honors, or certifications."] },
   { id := "skills",
     label := "Skill blocks highlight tools and strengths",
     required := true,
     satisfied := doc.skills.any fun block => decide (0 < (jsTrim block.items).length),
     tips := ["Group skills by tooling, methodologies, and domains.",
              "Mirror keywords used in your target job descriptions."] }]

/-- `ChecklistPanel` (line 165): `checklist.every((item) => item.satisfied)`. -/
def checklistComplete (cl : List ChecklistItem) : Bool :=
  cl.all fun item => item.satisfied

/-- `ChecklistPanel` (line 166):
`checklist.filter((item) => item.satisfied).length`. -/
def completedCount (cl : List ChecklistItem) : Nat :=
  (cl.filter fun item => item.satisfied).length

/-! ## Update-by-identifier handlers (lines 546–573)

`Partial<T>` becomes a record of `Option` fields (`none` = the key is
absent from the update object); `{ ...record, ...updates }` becomes the
per-field `Option.getD` merge. -/

structure ExperienceUpdate where
  id : Option String := none
  role : Option String := none
  company : Option String := none
  location : Option String := none
  startDate : Option String := none
  endDate : Option String := none
  bullets : Option (List String) := none
deriving Repr, DecidableEq

def applyExperienceUpdate (exp : Experience) (u : ExperienceUpdate) : Experience :=
  { id := u.id.getD exp.id
    role := u.role.getD exp.role
    company := u.company.getD exp.company
    location := u.location.getD exp.location
    startDate := u.startDate.getD exp.startDate
    endDate := u.endDate.getD exp.endDate
    bullets := u.bullets.getD exp.bullets }

/-- `handleExperienceChange`:
`prev.map((exp) => (exp.id === id ? { ...exp, ...updates } : exp))`. -/
def handleExperienceChange (id : String) (updates : ExperienceUpdate)
    (prev : List Experience) : List Experience :=
  prev.map fun exp => if exp.id = id then applyExperienceUpdate exp updates else exp

structure EducationUpdate where
  id : Option String := none
  school : Option String := none
  degree : Option String := none
  startDate : Option String := none
  endDate : Option String := none
  details : Option String := none
  location : Option String := none
deriving Repr, DecidableEq

def applyEducationUpdate (edu : Education) (u : EducationUpdate) : Education :=
  { id := u.id.getD edu.id
    school := u.school.getD edu.school
    degree := u.degree.getD edu.degree
    startDate := u.startDate.getD edu.startDate
    endDate := u.endDate.getD edu.endDate
    details := u.details.getD edu.details
    location := u.location.getD edu.location }

def handleEducationChange (id : String) (updates : EducationUpdate)
    (prev : List Education) : List Education :=
  prev.map fun edu => if edu.id = id then applyEducationUpdate edu updates else edu

structure ProjectUpdate where
  id : Option String := none
  name : Option String := none
  description : Option String := none
  link : Option String := none
  highlights : Option (List String) := none
deriving Repr, DecidableEq

def applyProjectUpdate (project : Project) (u : ProjectUpdate) : Project :=
  { id := u.id.getD project.id
    name := u.name.getD project.name
    description := u.description.getD project.description
    link := u.link.getD project.link
    highlights := u.highlights.getD project.highlights }

def handleProjectChange (id : String) (updates : ProjectUpdate)
    (prev : List Project) : List Project :=
  prev.map fun project =>
    if project.id = id then applyProjectUpdate project updates else project

structure SkillBlockUpdate where
  id : Option String := none
  label : Option String := none
  items : Option String := none
deriving Repr, DecidableEq

def applySkillBlockUpdate (block : SkillBlock) (u : SkillBlockUpdate) : SkillBlock :=
  { id := u.id.getD block.id
    label := u.label.getD block.label
    items := u.items.getD block.items }

def handleSkillChange (id : String) (updates : SkillBlockUpdate)
    (prev : List SkillBlock) : List SkillBlock :=
  prev.map fun block => if block.id = id then applySkillBlockUpdate block updates else block

/-! ## Bullet editing (lines 782–794 and 801–814) -/

/-- The bullets textarea `onChange`: split the text on newlines, trim
each line, drop blank lines. -/
def parseBullets (text : String) : List String :=
  ((text.splitOn "\n").map jsTrim).filter fun line => decide (0 < line.length)

/-- The suggestion list rendered for one experience entry (lines
718–721): suggested bullets for `` `${exp.role} ${exp.company}` `` and
the summary, minus bullets already present; the click handler takes
them from `suggestions.slice(0, 4)`. -/
def suggestionsFor (personal : PersonalInfo) (exp : Experience) : List String :=
  ((getSuggestedBullets (exp.role ++ " " ++ exp.company) personal.summary).filter
    fun bullet => !exp.bullets.contains bullet).take 4

/-- The suggestion-button `onClick`: append the suggestion to the
entry's bullets through `handleExperienceChange`. -/
def acceptSuggestion (exp : Experience) (suggestion : String)
    (prev : List Experience) : List Experience :=
  handleExperienceChange exp.id { bullets := some (exp.bullets ++ [suggestion]) } prev

/-! ## JSON export (`exportAsJson`, lines 575–591)

The exported value `{ personal, experiences, educations, projects,
skills }` only contains strings, arrays and objects, so the JSON
fragment below has exactly those three constructors.
`JSON.stringify(value, null, 2)` is embedded as `renderJson`, and the
round-trip claim is checked against the executable reader
`parseJsonVal`. -/

inductive Json where
  | str : String → Json
  | arr : List Json → Json
  | obj : List (String × Json) → Json
deriving Repr

/-- The lowercase hexadecimal digit for `n % 16`. -/
def hexDigitChar (n : Nat) : Char :=
  if n < 10 then Char.ofNat ('0'.toNat + n) else Char.ofNat ('a'.toNat + (n - 10))

/-- `QuoteJSONString` escaping of one character: the two-character
escapes for quote, backslash and the named control characters,
`\u00xx` for the other control characters, the character itself
otherwise. -/
def escapeChar (c : Char) : List Char :=
  if c = '"' then ['\\', '"']
  else if c = '\\' then ['\\', '\\']
  else if c = '\x08' then ['\\', 'b']
  else if c = '\x0c' then ['\\', 'f']
  else if c = '\n' then ['\\', 'n']
  else if c = '\r' then ['\\', 'r']
  else if c = '\t' then ['\\', 't']
  else if c.toNat < 32 then
    ['\\', 'u', '0', '0', hexDigitChar (c.toNat / 16), hexDigitChar (c.toNat % 16)]
  else [c]

def escapeChars (cs : List Char) : List Char := (cs.map escapeChar).flatten

/-- A JSON string literal: quote, escaped content, quote. -/
def quoteChars (cs : List Char) : List Char := '"' :: escapeChars cs ++ ['"']

def twoSpaces : List Char := [' ', ' ']

/-- `JSON.stringify(v, null, 2)` at current indentation `ind`: empty
arrays/objects print as `[]`/`\x7b\x7d`, non-empty ones put every item on
its own line indented two further spaces, with `": "` between a key and
its value. -/
def renderJson (ind : List Char) : Json → List Char
  | .str s => quoteChars s.data
  | .arr [] => ['[', ']']
  | .arr (x :: xs) =>
      '[' :: '\n' :: (ind ++ twoSpaces) ++ renderJson (ind ++ twoSpaces) x
        ++ renderArrRest (ind ++ twoSpaces) xs ++ '\n' :: ind ++ [']']
  | .obj [] => ['\x7b', '\x7d']
  | .obj (kv :: kvs) =>
      '\x7b' :: '\n' :: (ind ++ twoSpaces) ++ renderField (ind ++ twoSpaces) kv
        ++ renderObjRest (ind ++ twoSpaces) kvs ++ '\n' :: ind ++ ['\x7d']
where
  renderArrRest (ind : List Char) : List Json → List Char
    | [] => []
    | x :: xs => ',' :: '\n' :: ind ++ renderJson ind x ++ renderArrRest ind xs
  renderField (ind : List Char) : String × Json → List Char
    | (k, v) => quoteChars k.data ++ ':' :: ' ' :: renderJson ind v
  renderObjRest (ind : List Char) : List (String × Json) → List Char
    | [] => []
    | kv :: kvs => ',' :: '\n' :: ind ++ renderField ind kv ++ renderObjRest ind kvs

/-- The document value serialized by `exportAsJson`, with the key order
of the object literal `{ personal, experiences, educations, projects,
skills }` and of the record factories. -/
def personalToJson (p : PersonalInfo) : Json :=
  .obj [("fullName", .str p.fullName), ("headline", .str p.headline),
        ("email", .str p.email), ("phone", .str p.phone),
        ("location", .str p.location), ("website", .str p.website),
        ("linkedin", .str p.linkedin), ("summary", .str p.summary)]

def experienceToJson (e : Experience) : Json :=
  .obj [("id", .str e.id), ("role", .str e.role), ("company", .str e.company),
        ("location", .str e.location), ("startDate", .str e.startDate),
        ("endDate", .str e.endDate), ("bullets", .arr (e.bullets.map Json.str))]

def educationToJson (e : Education) : Json :=
  .obj [("id", .str e.id), ("school", .str e.school), ("degree", .str e.degree),
        ("startDate", .str e.startDate), ("endDate", .str e.endDate),
        ("details", .str e.details), ("location", .str e.location)]

def projectToJson (p : Project) : Json :=
  .obj [("id", .str p.id), ("name", .str p.name),
        ("description", .str p.description), ("link", .str p.link),
        ("highlights", .arr (p.highlights.map Json.str))]

def skillBlockToJson (b : SkillBlock) : Json :=
  .obj [("id", .str b.id), ("label", .str b.label), ("items", .str b.items)]

def docToJson (doc : ResumeDocument) : Json :=
  .obj [("personal", personalToJson doc.personal),
        ("experiences", .arr (doc.experiences.map experienceToJson)),
        ("educations", .arr (doc.educations.map educationToJson)),
        ("projects", .arr (doc.projects.map projectToJson)),
        ("skills", .arr (doc.skills.map skillBlockToJson))]

/-- The text handed to the download blob:
`JSON.stringify({ personal, experiences, educations, projects, skills }, null, 2)`. -/
def exportAsJson (doc : ResumeDocument) : String :=
  String.mk (renderJson [] (docToJson doc))

/-- `link.download` in `exportAsJson`. -/
def exportFileName : String := "resume-builder-export.json"

/-- The keys of a JSON object (and `[]` for other values). -/
def jsonKeys : Json → List String
  | .obj kvs => kvs.map fun kv => kv.1
  | _ => []

/-! ### An executable JSON reader (for the round-trip claim) -/

/-- JSON insignificant whitespace. -/
def jsonWs (c : Char) : Bool := c = ' ' || c = '\t' || c = '\n' || c = '\r'

def skipJsonWs (cs : List Char) : List Char := cs.dropWhile jsonWs

def decodeHexDigit (c : Char) : Option Nat :=
  if '0' ≤ c ∧ c ≤ '9' then some (c.toNat - '0'.toNat)
  else if 'a' ≤ c ∧ c ≤ 'f' then some (c.toNat - 'a'.toNat + 10)
  else if 'A' ≤ c ∧ c ≤ 'F' then some (c.toNat - 'A'.toNat + 10)
  else none

/-- Read the body of a JSON string literal (the opening quote already
consumed) up to the closing quote, decoding escapes. -/
def parseStrBody : List Char → Option (List Char × List Char)
  | [] => none
  | c :: cs =>
    if c = '"' then some ([], cs)
    else if c = '\\' then
      match cs with
      | [] => none
      | e :: cs2 =>
        if e = '"' then (parseStrBody cs2).map fun p => ('"' :: p.1, p.2)
        else if e = '\\' then (parseStrBody cs2).map fun p => ('\\' :: p.1, p.2)
        else if e = '/' then (parseStrBody cs2).map fun p => ('/' :: p.1, p.2)
        else if e = 'b' then (parseStrBody cs2).map fun p => ('\x08' :: p.1, p.2)
        else if e = 'f' then (parseStrBody cs2).map fun p => ('\x0c' :: p.1, p.2)
        else if e = 'n' then (parseStrBody cs2).map fun p => ('\n' :: p.1, p.2)
        else if e = 'r' then (parseStrBody cs2).map fun p => ('\r' :: p.1, p.2)
        else if e = 't' then (parseStrBody cs2).map fun p => ('\t' :: p.1, p.2)
        else if e = 'u' then
          match cs2 with
          | h1 :: h2 :: h3 :: h4 :: cs3 =>
            match decodeHexDigit h1, decodeHexDigit h2,
                decodeHexDigit h3, decodeHexDigit h4 with
            | some a, some b, some c1, some d1 =>
              let n := ((a * 16 + b) * 16 + c1) * 16 + d1
              if n < 0xd800 then
                (parseStrBody cs3).map fun p => (Char.ofNat n :: p.1, p.2)
              else none
            | _, _, _, _ => none
          | _ => none
        else none
    else (parseStrBody cs).map fun p => (c :: p.1, p.2)

/-- A fuelled recursive-descent reader for the JSON fragment produced
by `renderJson` (strings, arrays, objects). -/
def parseJsonVal : Nat → List Char → Option (Json × List Char)
  | 0, _ => none
  | fuel + 1, cs =>
    match skipJsonWs cs with
    | '"' :: rest =>
      match parseStrBody rest with
      | some (content, rest2) => some (.str (String.mk content), rest2)
      | none => none
    | '[' :: rest =>
      match skipJsonWs rest with
      | ']' :: rest2 => some (.arr [], rest2)
      | rest1 =>
        match parseJsonVal fuel rest1 with
        | some (v, rest2) =>
          match parseArrRest fuel rest2 with
          | some (vs, rest3) => some (.arr (v :: vs), rest3)
          | none => none
        | none => none
    | '\x7b' :: rest =>
      match skipJsonWs rest with
      | '\x7d' :: rest2 => some (.obj [], rest2)
      | rest1 =>
        match parseObjField fuel rest1 with
        | some (kv, rest2) =>
          match parseObjRest fuel rest2 with
          | some (kvs, rest3) => some (.obj (kv :: kvs), rest3)
          | none => none
        | none => none
    | _ => none
where
  /-- After one array item: `]` closes, `,` precedes the next item. -/
  parseArrRest : Nat → List Char → Option (List Json × List Char)
    | 0, _ => none
    | fuel + 1, cs =>
      match skipJsonWs cs with
      | ']' :: rest => some ([], rest)
      | ',' :: rest =>
        match parseJsonVal fuel rest with
        | some (v, rest2) =>
          match parseArrRest fuel rest2 with
          | some (vs, rest3) => some (v :: vs, rest3)
          | none => none
        | none => none
      | _ => none
  /-- One `"key": value` member. -/
  parseObjField : Nat → List Char → Option ((String × Json) × List Char)
    | 0, _ => none
    | fuel + 1, cs =>
      match skipJsonWs cs with
      | '"' :: rest =>
        match parseStrBody rest with
        | some (key, rest2) =>
          match skipJsonWs rest2 with
          | ':' :: rest3 =>
            match parseJsonVal fuel rest3 with
            | some (v, rest4) => some ((String.mk key, v), rest4)
            | none => none
          | _ => none
        | none => none
      | _ => none
  /-- After one object member: `\x7d` closes, `,` precedes the next. -/
  parseObjRest : Nat → List Char → Option (List (String × Json) × List Char)
    | 0, _ => none
    | fuel + 1, cs =>
      match skipJsonWs cs with
      | '\x7d' :: rest => some ([], rest)
      | ',' :: rest =>
        match parseObjField fuel rest with
        | some (kv, rest2) =>
          match parseObjRest fuel rest2 with
          | some (kvs, rest3) => some (kv :: kvs, rest3)
          | none => none
        | none => none
      | _ => none

/-- Parse a complete JSON text: one value, then only whitespace. -/
def parseJsonText (s : String) : Option Json :=
  match parseJsonVal (s.data.length + 1) s.data with
  | some (j, rest) => if skipJsonWs rest = [] then some j else none
  | none => none

/-! ### Decoding a parsed document back into records -/

def strListOfJson : Json → Option (List String)
  | .arr xs => go xs
  | _ => none
where
  go : List Json → Option (List String)
    | [] => some []
    | .str s :: xs => (go xs).map fun ss => s :: ss
    | _ :: _ => none

def personalOfJson : Json → Option PersonalInfo
  | .obj [("fullName", .str a), ("headline", .str b), ("email", .str c),
          ("phone", .str d), ("location", .str e), ("website", .str f),
          ("linkedin", .str g), ("summary", .str h)] =>
      some ⟨a, b, c, d, e, f, g, h⟩
  | _ => none

def experienceOfJson : Json → Option Experience
  | .obj [("id", .str i), ("role", .str r), ("company", .str c),
          ("location", .str l), ("startDate", .str sd), ("endDate", .str ed),
          ("bullets", bj)] =>
      (strListOfJson bj).map fun bs => ⟨i, r, c, l, sd, ed, bs⟩
  | _ => none

def educationOfJson : Json → Option Education
  | .obj [("id", .str i), ("school", .str s), ("degree", .str d),
          ("startDate", .str sd), ("endDate", .str ed), ("details", .str dt),
          ("location", .str l)] =>
      some ⟨i, s, d, sd, ed, dt, l⟩
  | _ => none

def projectOfJson : Json → Option Project
  | .obj [("id", .str i), ("name", .str n), ("description", .str d),
          ("link", .str l), ("highlights", hj)] =>
      (strListOfJson hj).map fun hs => ⟨i, n, d, l, hs⟩
  | _ => none

def skillBlockOfJson : Json → Option SkillBlock
  | .obj [("id", .str i), ("label", .str l), ("items", .str it)] =>
      some ⟨i, l, it⟩
  | _ => none

def listOfJson (dec : Json → Option α) : List Json → Option (List α)
  | [] => some []
  | j :: js =>
    match dec j, listOfJson dec js with
    | some a, some as => some (a :: as)
    | _, _ => none

def docOfJson : Json → Option ResumeDocument
  | .obj [("personal", pj), ("experiences", .arr ej), ("educations", .arr dj),
          ("projects", .arr rj), ("skills", .arr sj)] =>
      match personalOfJson pj, listOfJson experienceOfJson ej,
          listOfJson educationOfJson dj, listOfJson projectOfJson rj,
          listOfJson skillBlockOfJson sj with
      | some p, some es, some ds, some ps, some ss => some ⟨p, es, ds, ps, ss⟩
      | _, _, _, _, _ => none
  | _ => none


/-! ### Fuel accounting for the reader

`parseJsonVal` consumes one unit of fuel per recursive step;
`jsonFuel` bounds the fuel any rendered value needs. -/

def jsonFuel : Json → Nat
  | .str _ => 1
  | .arr xs => 1 + fuelItems xs
  | .obj kvs => 1 + fuelFields kvs
where
  fuelItems : List Json → Nat
    | [] => 1
    | x :: xs => 1 + jsonFuel x + fuelItems xs
  fuelFields : List (String × Json) → Nat
    | [] => 1
    | (_, v) :: kvs => 2 + jsonFuel v + fuelFields kvs

/-- The round-trip property of one JSON value: its rendering at any
whitespace indentation, followed by anything, parses back to exactly
that value with the rest untouched, given enough fuel. -/
def ParsesBack (j : Json) : Prop :=
  ∀ (ind rest : List Char) (fuel : Nat), jsonFuel j ≤ fuel →
    (∀ c ∈ ind, jsonWs c = true) →
    parseJsonVal fuel (renderJson ind j ++ rest) = some (j, rest)

/-! ## Concrete documents used by the tests of §8 of the specification -/

/-- The document of the spec's frame-effect test: "Ada" with a complete
contact section, one experience entry with no bullets, everything else
the empty starting shape. -/
def adaDoc : ResumeDocument :=
  { personal := ⟨"Ada", "Engineer", "a@b.com", "", "NY", "", "", ""⟩
    experiences := [⟨"exp-1", "", "", "", "", "", []⟩]
    educations := [⟨"edu-1", "", "", "", "", "", ""⟩]
    projects := [⟨"proj-1", "", "", "", []⟩]
    skills := [⟨"skill-1", "Core", ""⟩] }

/-- `adaDoc` after the bullets of its single experience entry are set to
`bs` through the update-by-identifier handler. -/
def adaDocWithBullets (bs : List String) : ResumeDocument :=
  { adaDoc with
    experiences := handleExperienceChange "exp-1" { bullets := some bs } adaDoc.experiences }

/-! # Theorems

## General-purpose lemmas about the embedded primitives -/

theorem string_ne_empty_iff_data (s : String) : s ≠ "" ↔ s.data ≠ [] :=
  ⟨fun h hd => h (String.ext hd), fun h hs => h (by rw [hs])⟩

theorem string_length_pos_iff_ne_empty (s : String) :
    0 < s.length ↔ s ≠ "" := by
  rw [show s.length = s.data.length from rfl, List.length_pos,
    string_ne_empty_iff_data]

theorem list_any_decide {α : Type} (l : List α) (p : α → Prop) [DecidablePred p] :
    (l.any fun a => decide (p a)) = decide (∃ a ∈ l, p a) :=
  Bool.eq_iff_iff.mpr (by simp [List.any_eq_true])

theorem string_contains_eq (l : List String) (x : String) :
    l.contains x = decide (x ∈ l) :=
  List.elem_eq_mem x l

theorem mem_dedupAux (b : String) :
    ∀ (l seen : List String), b ∈ dedupAux seen l ↔ b ∈ l ∧ b ∉ seen := by
  intro l
  induction l with
  | nil => intro seen; simp [dedupAux]
  | cons x xs ih =>
    intro seen
    by_cases h : x ∈ seen
    · rw [dedupAux, if_pos (by simp [string_contains_eq, h]), ih]
      constructor
      · exact fun ⟨hm, hs⟩ => ⟨List.mem_cons_of_mem x hm, hs⟩
      · rintro ⟨hm, hs⟩
        rcases List.mem_cons.mp hm with rfl | hm
        · exact absurd h hs
        · exact ⟨hm, hs⟩
    · rw [dedupAux, if_neg (by simp [string_contains_eq, h])]
      constructor
      · intro hm
        rcases List.mem_cons.mp hm with rfl | hm
        · exact ⟨List.mem_cons_self b xs, h⟩
        · obtain ⟨h1, h2⟩ := (ih (x :: seen)).mp hm
          exact ⟨List.mem_cons_of_mem x h1, fun hb => h2 (List.mem_cons_of_mem x hb)⟩
      · rintro ⟨hm, hs⟩
        rcases List.mem_cons.mp hm with rfl | hm
        · exact List.mem_cons_self b _
        · by_cases hbx : b = x
          · exact hbx ▸ List.mem_cons_self b _
          · exact List.mem_cons_of_mem x ((ih (x :: seen)).mpr
              ⟨hm, fun hb => (List.mem_cons.mp hb).elim hbx hs⟩)

theorem nodup_dedupAux :
    ∀ (l seen : List String), (dedupAux seen l).Nodup := by
  intro l
  induction l with
  | nil => intro seen; simp [dedupAux]
  | cons x xs ih =>
    intro seen
    by_cases h : x ∈ seen
    · rw [dedupAux, if_pos (by simp [string_contains_eq, h])]
      exact ih seen
    · rw [dedupAux, if_neg (by simp [string_contains_eq, h])]
      refine List.nodup_cons.mpr ⟨fun hm => ?_, ih (x :: seen)⟩
      exact ((mem_dedupAux x xs (x :: seen)).mp hm).2 (List.mem_cons_self x seen)

theorem dedupAux_sublist :
    ∀ (l seen : List String), (dedupAux seen l).Sublist l := by
  intro l
  induction l with
  | nil => intro seen; simp [dedupAux]
  | cons x xs ih =>
    intro seen
    by_cases h : x ∈ seen
    · rw [dedupAux, if_pos (by simp [string_contains_eq, h])]
      exact (ih seen).cons x
    · rw [dedupAux, if_neg (by simp [string_contains_eq, h])]
      exact (ih (x :: seen)).cons₂ x

theorem mem_dedupFirst (b : String) (l : List String) :
    b ∈ dedupFirst l ↔ b ∈ l := by
  rw [dedupFirst, mem_dedupAux]
  simp

theorem nodup_dedupFirst (l : List String) : (dedupFirst l).Nodup :=
  nodup_dedupAux l []

theorem dedupFirst_sublist (l : List String) : (dedupFirst l).Sublist l :=
  dedupAux_sublist l []

/-! ## Trimming lemmas -/

theorem dropWhile_dropWhile {α : Type} (p : α → Bool) (l : List α) :
    (l.dropWhile p).dropWhile p = l.dropWhile p := by
  induction l with
  | nil => rfl
  | cons a t ih =>
    by_cases h : p a
    · rw [List.dropWhile_cons, if_pos h, ih]
    · rw [List.dropWhile_cons, if_neg h, List.dropWhile_cons, if_neg h]

theorem dropWhile_head_false {α : Type} (p : α → Bool) :
    ∀ (l : List α) (a : α) (t : List α), l.dropWhile p = a :: t → p a = false := by
  intro l
  induction l with
  | nil => intro a t h; exact absurd h (by simp)
  | cons x xs ih =>
    intro a t h
    by_cases hx : p x
    · exact ih a t (by rwa [List.dropWhile_cons, if_pos hx] at h)
    · rw [List.dropWhile_cons, if_neg hx] at h
      cases h
      exact Bool.eq_false_iff.mpr hx

theorem trimChars_idem (cs : List Char) :
    trimChars (trimChars cs) = trimChars cs := by
  set q := Char.isWhitespace
  have hT : trimChars cs
      = ((cs.dropWhile q).reverse.dropWhile q).reverse := rfl
  set C := cs.dropWhile q with hC
  set D := C.reverse.dropWhile q with hD
  have hTD : trimChars cs = D.reverse := rfl
  have hdwT : (trimChars cs).dropWhile q = trimChars cs := by
    rw [hTD]
    rcases hrev : D.reverse with _ | ⟨a, t⟩
    · rfl
    · have hpref : D.reverse <+: C := by
        rw [← List.reverse_reverse C]
        exact List.reverse_prefix.mpr (hD ▸ List.dropWhile_suffix q)
      obtain ⟨u, hu⟩ := hpref
      have : C = a :: (t ++ u) := by rw [← hu, hrev]; simp
      have ha : q a = false := dropWhile_head_false q cs a (t ++ u) (hC ▸ this)
      rw [List.dropWhile_cons, if_neg (by simp [ha])]
  rw [show trimChars (trimChars cs)
      = (((trimChars cs).dropWhile q).reverse.dropWhile q).reverse from rfl,
    hdwT, hTD, List.reverse_reverse, hD, dropWhile_dropWhile, ← hD, ← hTD, hTD]

theorem jsTrim_idem (s : String) : jsTrim (jsTrim s) = jsTrim s :=
  String.ext (by rw [show (jsTrim (jsTrim s)).data
      = trimChars (trimChars s.data) from rfl, trimChars_idem]; rfl)

/-! ## Bridging the source's boolean predicates and the claim language -/

theorem contact_bool (p : PersonalInfo) :
    (decide (0 < (jsTrim p.fullName).length) && decide (0 < (jsTrim p.headline).length)
        && decide (0 < (jsTrim p.email).length) && decide (0 < (jsTrim p.location).length))
      = decide (jsTrim p.fullName ≠ "" ∧ jsTrim p.headline ≠ ""
          ∧ jsTrim p.email ≠ "" ∧ jsTrim p.location ≠ "") :=
  Bool.eq_iff_iff.mpr (by simp [string_length_pos_iff_ne_empty, and_assoc])

theorem experience_bool (l : List Experience) :
    (l.any fun exp => decide (3 ≤ exp.bullets.length))
      = decide (∃ exp ∈ l, 3 ≤ exp.bullets.length) :=
  Bool.eq_iff_iff.mpr (by simp [List.any_eq_true])

theorem education_bool (l : List Education) :
    (l.any fun edu => decide (0 < (jsTrim edu.degree).length)
        || decide (0 < (jsTrim edu.details).length))
      = decide (∃ edu ∈ l, jsTrim edu.degree ≠ "" ∨ jsTrim edu.details ≠ "") :=
  Bool.eq_iff_iff.mpr (by simp [List.any_eq_true, string_length_pos_iff_ne_empty])

theorem skills_bool (l : List SkillBlock) :
    (l.any fun block => decide (0 < (jsTrim block.items).length))
      = decide (∃ block ∈ l, jsTrim block.items ≠ "") :=
  Bool.eq_iff_iff.mpr (by simp [List.any_eq_true, string_length_pos_iff_ne_empty])

/-! ## Generic lemmas about the update-by-identifier map -/

theorem updateById_no_match {α : Type} (l : List α) (sel : α → Prop)
    [DecidablePred sel] (upd : α → α) (h : ∀ a ∈ l, ¬ sel a) :
    (l.map fun a => if sel a then upd a else a) = l := by
  calc (l.map fun a => if sel a then upd a else a)
      = l.map id := List.map_congr_left fun a ha => by rw [if_neg (h a ha)]; rfl
    _ = l := List.map_id l

theorem updateById_get {α : Type} (l : List α) (sel : α → Prop)
    [DecidablePred sel] (upd : α → α) (k : Nat) (h1 : k < l.length)
    (h2 : k < (l.map fun a => if sel a then upd a else a).length) :
    (l.map fun a => if sel a then upd a else a).get ⟨k, h2⟩
      = if sel (l.get ⟨k, h1⟩) then upd (l.get ⟨k, h1⟩) else l.get ⟨k, h1⟩ := by
  simp [List.get_eq_getElem, List.getElem_map]

/-! ## The claims -/

/-- C1: for every `ResumeDocument` the checklist has exactly five items,
in the fixed order contact, summary, experience, education, skills, with
the fixed required flags, and each `satisfied` field holds exactly under
the predicate the specification states for it (all-trimmed-non-blank
contact fields; trimmed summary longer than 60; some experience entry
with at least 3 bullets; some education entry with non-blank trimmed
degree or details; some skill block with non-blank trimmed items). -/
theorem checklist_items_spec (doc : ResumeDocument) :
    (checklist doc).map (fun item => (item.id, item.satisfied))
      = [("contact", decide (jsTrim doc.personal.fullName ≠ ""
            ∧ jsTrim doc.personal.headline ≠ ""
            ∧ jsTrim doc.personal.email ≠ ""
            ∧ jsTrim doc.personal.location ≠ "")),
         ("summary", decide (60 < (jsTrim doc.personal.summary).length)),
         ("experience", decide (∃ exp ∈ doc.experiences, 3 ≤ exp.bullets.length)),
         ("education", decide (∃ edu ∈ doc.educations,
            jsTrim edu.degree ≠ "" ∨ jsTrim edu.details ≠ "")),
         ("skills", decide (∃ block ∈ doc.skills, jsTrim block.items ≠ ""))]
  ∧ (checklist doc).map (fun item => (item.id, item.required))
      = [("contact", true), ("summary", false), ("experience", true),
         ("education", false), ("skills", true)]
  ∧ (checklist doc).length = 5 := by
  refine ⟨?_, by simp [checklist], by simp [checklist]⟩
  simp only [checklist, List.map_cons, List.map_nil, contact_bool,
    experience_bool, education_bool, skills_bool]

/-- C2: the summary derived by `ChecklistPanel` satisfies
`completedCount` = the number of satisfied items, total = 5 = the length
of the item list, and `complete` holds iff every item (required or not)
is satisfied — equivalently iff `completedCount` equals the total — so
any unsatisfied item, also a non-required one, forces `complete = false`. -/
theorem checklist_summary_spec (doc : ResumeDocument) :
    (checklist doc).length = 5
  ∧ completedCount (checklist doc) = (checklist doc).countP (fun item => item.satisfied)
  ∧ (checklistComplete (checklist doc) = true
      ↔ ∀ item ∈ checklist doc, item.satisfied = true)
  ∧ (checklistComplete (checklist doc) = true
      ↔ completedCount (checklist doc) = (checklist doc).length)
  ∧ (∀ item ∈ checklist doc, item.satisfied = false
      → checklistComplete (checklist doc) = false) := by
  refine ⟨by simp [checklist], (List.countP_eq_length_filter _ _).symm,
    List.all_eq_true, ?_, ?_⟩
  · constructor
    · intro h
      show ((checklist doc).filter fun item => item.satisfied).length = _
      rw [List.filter_eq_self.mpr (List.all_eq_true.mp h)]
    · intro h
      exact List.all_eq_true.mpr (List.filter_eq_self.mp
        ((List.filter_sublist _).eq_of_length h))
  · intro item hm hfalse
    cases hcomp : checklistComplete (checklist doc)
    · rfl
    · exact absurd (List.all_eq_true.mp hcomp item hm) (by simp [hfalse])

/-- C3: `getSuggestedBullets` is the first-occurrence de-duplication of
the concatenation, in library order, of the bullet groups of the entries
whose pattern matches the role context or the summary context, followed
by the generic fallback group; the result has the same members as that
concatenation, is one of its sublists (so both group order and each
group's internal order are preserved), and never contains two equal
strings. -/
theorem getSuggestedBullets_structure (role summary : String) :
    getSuggestedBullets role summary
      = dedupFirst (((roleSuggestionLibrary.filter fun entry =>
              patternTest entry.pattern role || patternTest entry.pattern summary).flatMap
            fun entry => entry.bullets) ++ genericBullets)
  ∧ (getSuggestedBullets role summary).Nodup
  ∧ (∀ b, b ∈ getSuggestedBullets role summary
        ↔ b ∈ ((roleSuggestionLibrary.filter fun entry =>
              patternTest entry.pattern role || patternTest entry.pattern summary).flatMap
            fun entry => entry.bullets) ++ genericBullets)
  ∧ (getSuggestedBullets role summary).Sublist
      (((roleSuggestionLibrary.filter fun entry =>
            patternTest entry.pattern role || patternTest entry.pattern summary).flatMap
          fun entry => entry.bullets) ++ genericBullets) :=
  ⟨rfl, nodup_dedupFirst _, fun b => mem_dedupFirst b _, dedupFirst_sublist _⟩

/-- C4: on two empty inputs the suggestion engine returns exactly the
three generic fallback bullets, in their declaration order. -/
theorem getSuggestedBullets_empty_inputs :
    getSuggestedBullets "" "" = genericBullets
  ∧ genericBullets =
      ["Partnered with stakeholders to prioritize initiatives by impact and effort.",
       "Applied measurable goals to track success and iterate quickly on feedback.",
       "Mentored teammates and strengthened team operating rituals to raise the quality bar."] :=
  ⟨by decide, rfl⟩

/-- C5: for role context "Senior Software Engineer" and empty summary
the result is exactly the three software-track bullets followed by the
three generic bullets, each group in its internal order — in particular
every software-track bullet precedes every generic one. -/
theorem getSuggestedBullets_senior_software :
    getSuggestedBullets "Senior Software Engineer" ""
      = softwareTrackBullets ++ genericBullets
  ∧ softwareTrackBullets.length = 3 ∧ genericBullets.length = 3 :=
  ⟨by decide, rfl, rfl⟩

/-- C6: the engine is total — it is a total function of its two string
arguments — and for every pair of inputs the result contains all three
generic fallback bullets, hence is never empty. -/
theorem getSuggestedBullets_always_generic (role summary : String) :
    genericBullets ⊆ getSuggestedBullets role summary
  ∧ getSuggestedBullets role summary ≠ [] := by
  have hsub : genericBullets ⊆ getSuggestedBullets role summary := by
    intro b hb
    have : b ∈ dedupFirst (((roleSuggestionLibrary.filter fun entry =>
        patternTest entry.pattern role || patternTest entry.pattern summary).flatMap
          fun entry => entry.bullets) ++ genericBullets) :=
      (mem_dedupFirst b _).mpr (List.mem_append.mpr (Or.inr hb))
    exact this
  exact ⟨hsub, List.ne_nil_of_mem (hsub (List.mem_cons_self _ _))⟩

/-- C7: on the "Ada" document (complete contact, one experience with no
bullets, everything else blank) the checklist marks contact satisfied,
experience unsatisfied, and is not complete; setting the experience's
bullets to any 3-element list through the update handler flips exactly
the experience item to satisfied and leaves every other item's
satisfied value unchanged. -/
theorem ada_document_checklist :
    (checklist adaDoc).map (fun item => (item.id, item.satisfied))
      = [("contact", true), ("summary", false), ("experience", false),
         ("education", false), ("skills", false)]
  ∧ checklistComplete (checklist adaDoc) = false
  ∧ ∀ bs : List String, bs.length = 3 →
      (checklist (adaDocWithBullets bs)).map (fun item => (item.id, item.satisfied))
        = [("contact", true), ("summary", false), ("experience", true),
           ("education", false), ("skills", false)] := by
  refine ⟨by decide, by decide, ?_⟩
  intro bs h
  simp only [checklist, adaDocWithBullets, adaDoc, handleExperienceChange,
    applyExperienceUpdate, List.map_cons, List.map_nil, List.any_cons,
    List.any_nil, Option.getD_some, Option.getD_none, if_true, h]
  decide

/-- C9 counterexample: an update object that itself contains an `id`
field does overwrite the record's identifier: updating the record with
identifier "a" by `\x7b id: "b" \x7d` leaves a list whose only identifier
is "b", not "a". -/
theorem update_by_id_changes_id :
    (handleExperienceChange "a" { id := some "b" }
        [⟨"a", "", "", "", "", "", []⟩]).map (fun exp => exp.id) ≠ ["a"] := by
  decide

/-- C9 (amended): each update-by-identifier handler merges the update
into exactly the records whose identifier equals the given one, keeps
the list's length and order, keeps every other record unchanged, keeps
every field the update does not mention, and — provided the update does
not itself carry the identifier field — keeps the identifier; a list
with no matching identifier is returned unchanged. -/
theorem update_by_id_spec (i : String) :
    (∀ (u : ExperienceUpdate) (l : List Experience),
        (handleExperienceChange i u l).length = l.length
      ∧ ((∀ e ∈ l, e.id ≠ i) → handleExperienceChange i u l = l)
      ∧ (∀ (k : Nat) (h1 : k < l.length)
            (h2 : k < (handleExperienceChange i u l).length),
            (handleExperienceChange i u l).get ⟨k, h2⟩
              = if (l.get ⟨k, h1⟩).id = i
                then applyExperienceUpdate (l.get ⟨k, h1⟩) u else l.get ⟨k, h1⟩)
      ∧ (∀ e, applyExperienceUpdate e u
            = { id := u.id.getD e.id, role := u.role.getD e.role,
                company := u.company.getD e.company,
                location := u.location.getD e.location,
                startDate := u.startDate.getD e.startDate,
                endDate := u.endDate.getD e.endDate,
                bullets := u.bullets.getD e.bullets })
      ∧ (u.id = none → ∀ e, (applyExperienceUpdate e u).id = e.id))
  ∧ (∀ (u : EducationUpdate) (l : List Education),
        (handleEducationChange i u l).length = l.length
      ∧ ((∀ e ∈ l, e.id ≠ i) → handleEducationChange i u l = l)
      ∧ (∀ (k : Nat) (h1 : k < l.length)
            (h2 : k < (handleEducationChange i u l).length),
            (handleEducationChange i u l).get ⟨k, h2⟩
              = if (l.get ⟨k, h1⟩).id = i
                then applyEducationUpdate (l.get ⟨k, h1⟩) u else l.get ⟨k, h1⟩)
      ∧ (∀ e, applyEducationUpdate e u
            = { id := u.id.getD e.id, school := u.school.getD e.school,
                degree := u.degree.getD e.degree,
                startDate := u.startDate.getD e.startDate,
                endDate := u.endDate.getD e.endDate,
                details := u.details.getD e.details,
                location := u.location.getD e.location })
      ∧ (u.id = none → ∀ e, (applyEducationUpdate e u).id = e.id))
  ∧ (∀ (u : ProjectUpdate) (l : List Project),
        (handleProjectChange i u l).length = l.length
      ∧ ((∀ e ∈ l, e.id ≠ i) → handleProjectChange i u l = l)
      ∧ (∀ (k : Nat) (h1 : k < l.length)
            (h2 : k < (handleProjectChange i u l).length),
            (handleProjectChange i u l).get ⟨k, h2⟩
              = if (l.get ⟨k, h1⟩).id = i
                then applyProjectUpdate (l.get ⟨k, h1⟩) u else l.get ⟨k, h1⟩)
      ∧ (∀ e, applyProjectUpdate e u
            = { id := u.id.getD e.id, name := u.name.getD e.name,
                description := u.description.getD e.description,
                link := u.link.getD e.link,
                highlights := u.highlights.getD e.highlights })
      ∧ (u.id = none → ∀ e, (applyProjectUpdate e u).id = e.id))
  ∧ (∀ (u : SkillBlockUpdate) (l : List SkillBlock),
        (handleSkillChange i u l).length = l.length
      ∧ ((∀ e ∈ l, e.id ≠ i) → handleSkillChange i u l = l)
      ∧ (∀ (k : Nat) (h1 : k < l.length)
            (h2 : k < (handleSkillChange i u l).length),
            (handleSkillChange i u l).get ⟨k, h2⟩
              = if (l.get ⟨k, h1⟩).id = i
                then applySkillBlockUpdate (l.get ⟨k, h1⟩) u else l.get ⟨k, h1⟩)
      ∧ (∀ e, applySkillBlockUpdate e u
            = { id := u.id.getD e.id, label := u.label.getD e.label,
                items := u.items.getD e.items })
      ∧ (u.id = none → ∀ e, (applySkillBlockUpdate e u).id = e.id)) := by
  refine ⟨fun u l => ⟨List.length_map _ _, fun h => updateById_no_match l _ _ h,
      fun k h1 h2 => updateById_get l _ _ k h1 h2, fun e => rfl,
      fun hnone e => by simp [applyExperienceUpdate, hnone]⟩,
    fun u l => ⟨List.length_map _ _, fun h => updateById_no_match l _ _ h,
      fun k h1 h2 => updateById_get l _ _ k h1 h2, fun e => rfl,
      fun hnone e => by simp [applyEducationUpdate, hnone]⟩,
    fun u l => ⟨List.length_map _ _, fun h => updateById_no_match l _ _ h,
      fun k h1 h2 => updateById_get l _ _ k h1 h2, fun e => rfl,
      fun hnone e => by simp [applyProjectUpdate, hnone]⟩,
    fun u l => ⟨List.length_map _ _, fun h => updateById_no_match l _ _ h,
      fun k h1 h2 => updateById_get l _ _ k h1 h2, fun e => rfl,
      fun hnone e => by simp [applySkillBlockUpdate, hnone]⟩⟩

/-- C10: every bullet the UI can store is trimmed and non-empty — the
bullets-edit operation only keeps trimmed non-blank lines, and every
string the suggestion engine (and hence the accept-suggestion click)
can offer is itself trim-fixed and non-empty. -/
theorem stored_bullets_trimmed :
    (∀ text : String, ∀ b ∈ parseBullets text, jsTrim b = b ∧ b ≠ "")
  ∧ (∀ role summary : String, ∀ b ∈ getSuggestedBullets role summary,
        jsTrim b = b ∧ b ≠ "")
  ∧ (∀ (p : PersonalInfo) (exp : Experience), ∀ b ∈ suggestionsFor p exp,
        jsTrim b = b ∧ b ≠ "") := by
  have hall : ∀ b ∈ (roleSuggestionLibrary.flatMap fun entry => entry.bullets)
      ++ genericBullets, jsTrim b = b ∧ b ≠ "" := by decide
  have hsugg : ∀ role summary : String, ∀ b ∈ getSuggestedBullets role summary,
      jsTrim b = b ∧ b ≠ "" := by
    intro role summary b hb
    have hb2 : b ∈ ((roleSuggestionLibrary.filter fun entry =>
        patternTest entry.pattern role || patternTest entry.pattern summary).flatMap
          fun entry => entry.bullets) ++ genericBullets := (mem_dedupFirst b _).mp hb
    refine hall b ?_
    rcases List.mem_append.mp hb2 with h | h
    · obtain ⟨entry, hentry, hbent⟩ := List.mem_flatMap.mp h
      exact List.mem_append.mpr (Or.inl (List.mem_flatMap.mpr
        ⟨entry, List.mem_of_mem_filter hentry, hbent⟩))
    · exact List.mem_append.mpr (Or.inr h)
  refine ⟨?_, hsugg, ?_⟩
  · intro text b hb
    obtain ⟨hmem, hpos⟩ := List.mem_filter.mp hb
    obtain ⟨line, _, rfl⟩ := List.mem_map.mp hmem
    refine ⟨jsTrim_idem line, ?_⟩
    rw [← string_length_pos_iff_ne_empty]
    exact of_decide_eq_true hpos
  · intro p exp b hb
    exact hsugg _ _ b (List.mem_of_mem_filter (List.mem_of_mem_take hb))

/-! ## The JSON export round-trip (claim C8) -/

theorem json_induction (P : Json → Prop)
    (hstr : ∀ s, P (Json.str s))
    (harr : ∀ xs, (∀ x ∈ xs, P x) → P (Json.arr xs))
    (hobj : ∀ kvs, (∀ kv ∈ kvs, P kv.2) → P (Json.obj kvs)) :
    ∀ j, P j := by
  have H : ∀ (n : Nat) (j : Json), sizeOf j ≤ n → P j := by
    intro n
    induction n with
    | zero =>
      intro j h
      cases j <;> simp at h
    | succ n ih =>
      intro j h
      cases j with
      | str s => exact hstr s
      | arr xs =>
        refine harr xs fun x hx => ih x ?_
        have h1 := List.sizeOf_lt_of_mem hx
        have h2 : sizeOf (Json.arr xs) = 1 + sizeOf xs := by simp
        omega
      | obj kvs =>
        refine hobj kvs fun kv hkv => ih kv.2 ?_
        have h1 := List.sizeOf_lt_of_mem hkv
        have h2 : sizeOf (Json.obj kvs) = 1 + sizeOf kvs := by simp
        have h3 : sizeOf kv.2 < sizeOf kv := by
          obtain ⟨k, v⟩ := kv
          simp_arith
        omega
  exact fun j => H (sizeOf j) j le_rfl

theorem skipJsonWs_cons_of_not (c : Char) (l : List Char) (h : jsonWs c = false) :
    skipJsonWs (c :: l) = c :: l := by
  rw [skipJsonWs, List.dropWhile_cons, if_neg (by simp [h])]

theorem skipJsonWs_ws_front (w : List Char) (l : List Char)
    (hw : ∀ c ∈ w, jsonWs c = true) :
    skipJsonWs (w ++ l) = skipJsonWs l := by
  induction w with
  | nil => rfl
  | cons c t ih =>
    rw [List.cons_append, skipJsonWs, List.dropWhile_cons,
      if_pos (hw c (List.mem_cons_self c t)), ← skipJsonWs]
    exact ih fun c hc => hw c (List.mem_cons_of_mem _ hc)

theorem parseJsonVal_ws (w : List Char) (cs : List Char) (fuel : Nat)
    (hw : ∀ c ∈ w, jsonWs c = true) :
    parseJsonVal fuel (w ++ cs) = parseJsonVal fuel cs := by
  cases fuel with
  | zero => rfl
  | succ f => rw [parseJsonVal, parseJsonVal, skipJsonWs_ws_front w cs hw]

theorem renderJson_head (ind : List Char) (j : Json) :
    ∃ t, renderJson ind j = '"' :: t ∨ renderJson ind j = '[' :: t
      ∨ renderJson ind j = '\x7b' :: t := by
  cases j with
  | str s => exact ⟨escapeChars s.data ++ ['"'], Or.inl rfl⟩
  | arr xs => cases xs with
    | nil => exact ⟨[']'], Or.inr (Or.inl rfl)⟩
    | cons x t =>
      exact ⟨_, Or.inr (Or.inl rfl)⟩
  | obj kvs => cases kvs with
    | nil => exact ⟨['\x7d'], Or.inr (Or.inr rfl)⟩
    | cons kv t => exact ⟨_, Or.inr (Or.inr rfl)⟩

theorem skipJsonWs_renderJson (ind : List Char) (j : Json) (X : List Char) :
    skipJsonWs (renderJson ind j ++ X) = renderJson ind j ++ X := by
  obtain ⟨t, h | h | h⟩ := renderJson_head ind j <;>
    rw [h, List.cons_append] <;>
    exact skipJsonWs_cons_of_not _ _ (by decide)

theorem decodeHex_hexDigitChar : ∀ n, n < 16 → decodeHexDigit (hexDigitChar n) = some n := by
  decide

theorem parseStrBody_escape : ∀ (cs rest : List Char),
    parseStrBody (escapeChars cs ++ '"' :: rest) = some (cs, rest) := by
  intro cs
  induction cs with
  | nil =>
    intro rest
    rw [show escapeChars [] = [] from rfl, List.nil_append, parseStrBody.eq_def]
    simp
  | cons c t ih =>
    intro rest
    have hc : escapeChars (c :: t) ++ '"' :: rest
        = escapeChar c ++ (escapeChars t ++ '"' :: rest) := by
      simp [escapeChars]
    rw [hc]
    by_cases h1 : c = '"'
    · subst h1
      rw [show escapeChar '"' = ['\\', '"'] from rfl]
      simp only [List.cons_append, List.nil_append]
      rw [parseStrBody.eq_def]
      simp [ih rest]
    · by_cases h2 : c = '\\'
      · subst h2
        rw [show escapeChar '\\' = ['\\', '\\'] from rfl]
        simp only [List.cons_append, List.nil_append]
        rw [parseStrBody.eq_def]
        simp [ih rest]
      · by_cases h3 : c = '\x08'
        · subst h3
          rw [show escapeChar '\x08' = ['\\', 'b'] from rfl]
          simp only [List.cons_append, List.nil_append]
          rw [parseStrBody.eq_def]
          simp [ih rest]
        · by_cases h4 : c = '\x0c'
          · subst h4
            rw [show escapeChar '\x0c' = ['\\', 'f'] from rfl]
            simp only [List.cons_append, List.nil_append]
            rw [parseStrBody.eq_def]
            simp [ih rest]
          · by_cases h5 : c = '\n'
            · subst h5
              rw [show escapeChar '\n' = ['\\', 'n'] from rfl]
              simp only [List.cons_append, List.nil_append]
              rw [parseStrBody.eq_def]
              simp [ih rest]
            · by_cases h6 : c = '\r'
              · subst h6
                rw [show escapeChar '\r' = ['\\', 'r'] from rfl]
                simp only [List.cons_append, List.nil_append]
                rw [parseStrBody.eq_def]
                simp [ih rest]
              · by_cases h7 : c = '\t'
                · subst h7
                  rw [show escapeChar '\t' = ['\\', 't'] from rfl]
                  simp only [List.cons_append, List.nil_append]
                  rw [parseStrBody.eq_def]
                  simp [ih rest]
                · by_cases h8 : c.toNat < 32
                  · have heq : escapeChar c
                        = ['\\', 'u', '0', '0', hexDigitChar (c.toNat / 16),
                           hexDigitChar (c.toNat % 16)] := by
                      rw [escapeChar, if_neg h1, if_neg h2, if_neg h3, if_neg h4,
                        if_neg h5, if_neg h6, if_neg h7, if_pos h8]
                    have e0 : decodeHexDigit '0' = some 0 := by decide
                    have e1 : decodeHexDigit (hexDigitChar (c.toNat / 16))
                        = some (c.toNat / 16) :=
                      decodeHex_hexDigitChar _ (by omega)
                    have e2 : decodeHexDigit (hexDigitChar (c.toNat % 16))
                        = some (c.toNat % 16) :=
                      decodeHex_hexDigitChar _ (Nat.mod_lt _ (by norm_num))
                    have hn : ((0 * 16 + 0) * 16 + c.toNat / 16) * 16 + c.toNat % 16
                        = c.toNat := by omega
                    have hlt : c.toNat < 55296 := by omega
                    rw [heq]
                    simp only [List.cons_append, List.nil_append]
                    rw [parseStrBody.eq_def]
                    simp [e0, e1, e2, ih rest]
                    have hdm : c.toNat / 16 * 16 + c.toNat % 16 = c.toNat := by omega
                    rw [hdm]
                    exact ⟨by omega, Char.ofNat_toNat c⟩
                  · have heq : escapeChar c = [c] := by
                      rw [escapeChar, if_neg h1, if_neg h2, if_neg h3, if_neg h4,
                        if_neg h5, if_neg h6, if_neg h7, if_neg h8]
                    rw [heq, List.cons_append, List.nil_append, parseStrBody.eq_def]
                    simp [h1, h2, ih rest]

theorem wsList_newline_ind (ind : List Char) (hind : ∀ c ∈ ind, jsonWs c = true) :
    ∀ c ∈ '\n' :: ind, jsonWs c = true := by
  intro c hc
  rcases List.mem_cons.mp hc with rfl | hc
  · rfl
  · exact hind c hc

theorem wsInd_twoSpaces (ind : List Char) (hind : ∀ c ∈ ind, jsonWs c = true) :
    ∀ c ∈ ind ++ twoSpaces, jsonWs c = true := by
  intro c hc
  rcases List.mem_append.mp hc with h | h
  · exact hind c h
  · simp [twoSpaces] at h
    subst h
    rfl

theorem parseObjField_ws (w : List Char) (cs : List Char) (fuel : Nat)
    (hw : ∀ c ∈ w, jsonWs c = true) :
    parseJsonVal.parseObjField fuel (w ++ cs) = parseJsonVal.parseObjField fuel cs := by
  cases fuel with
  | zero => rfl
  | succ f =>
    rw [parseJsonVal.parseObjField, parseJsonVal.parseObjField,
      skipJsonWs_ws_front w cs hw]

theorem arrRest_parses (ind : List Char) (hind : ∀ c ∈ ind, jsonWs c = true) :
    ∀ (xs : List Json), (∀ x ∈ xs, ParsesBack x) →
      ∀ (rest : List Char) (fuel : Nat), jsonFuel.fuelItems xs ≤ fuel →
        parseJsonVal.parseArrRest fuel
          (renderJson.renderArrRest (ind ++ twoSpaces) xs ++ '\n' :: ind ++ ']' :: rest)
        = some (xs, rest) := by
  intro xs
  induction xs with
  | nil =>
    intro _ rest fuel hfuel
    have h1 : jsonFuel.fuelItems ([] : List Json) = 1 := rfl
    obtain ⟨f, rfl⟩ : ∃ f, fuel = f + 1 := ⟨fuel - 1, by omega⟩
    have hren : renderJson.renderArrRest (ind ++ twoSpaces) [] ++ '\n' :: ind ++ ']' :: rest
        = ('\n' :: ind) ++ (']' :: rest) := by
      simp [renderJson.renderArrRest]
    rw [hren, parseJsonVal.parseArrRest,
      skipJsonWs_ws_front ('\n' :: ind) _ (wsList_newline_ind ind hind),
      skipJsonWs_cons_of_not ']' _ (by decide)]
    simp
  | cons x xt ih =>
    intro hmem rest fuel hfuel
    have h1 : jsonFuel.fuelItems (x :: xt) = 1 + jsonFuel x + jsonFuel.fuelItems xt := rfl
    obtain ⟨f, rfl⟩ : ∃ f, fuel = f + 1 := ⟨fuel - 1, by omega⟩
    have hren : renderJson.renderArrRest (ind ++ twoSpaces) (x :: xt) ++ '\n' :: ind ++ ']' :: rest
        = ',' :: (('\n' :: (ind ++ twoSpaces))
            ++ (renderJson (ind ++ twoSpaces) x
              ++ (renderJson.renderArrRest (ind ++ twoSpaces) xt ++ '\n' :: ind ++ ']' :: rest))) := by
      simp [renderJson.renderArrRest]
    have hx : parseJsonVal f (('\n' :: (ind ++ twoSpaces))
        ++ (renderJson (ind ++ twoSpaces) x
          ++ (renderJson.renderArrRest (ind ++ twoSpaces) xt ++ '\n' :: ind ++ ']' :: rest)))
        = some (x, renderJson.renderArrRest (ind ++ twoSpaces) xt ++ '\n' :: ind ++ ']' :: rest) := by
      rw [parseJsonVal_ws _ _ _ (wsList_newline_ind _ (wsInd_twoSpaces ind hind))]
      exact hmem x (List.mem_cons_self _ _) (ind ++ twoSpaces) _ f (by omega)
        (wsInd_twoSpaces ind hind)
    have hrest : parseJsonVal.parseArrRest f
        (renderJson.renderArrRest (ind ++ twoSpaces) xt ++ '\n' :: ind ++ ']' :: rest)
        = some (xt, rest) :=
      ih (fun y hy => hmem y (List.mem_cons_of_mem _ hy)) rest f (by omega)
    rw [hren, parseJsonVal.parseArrRest, skipJsonWs_cons_of_not ',' _ (by decide)]
    simp only [List.cons_append, List.append_assoc] at hx hrest ⊢
    simp [hx, hrest]

theorem objField_parses (ind : List Char) (hind : ∀ c ∈ ind, jsonWs c = true)
    (k : String) (v : Json) (hv : ParsesBack v) :
    ∀ (rest : List Char) (fuel : Nat), 1 + jsonFuel v ≤ fuel →
      parseJsonVal.parseObjField fuel (renderJson.renderField ind (k, v) ++ rest)
        = some ((k, v), rest) := by
  intro rest fuel hfuel
  obtain ⟨f, rfl⟩ : ∃ f, fuel = f + 1 := ⟨fuel - 1, by omega⟩
  have hren : renderJson.renderField ind (k, v) ++ rest
      = '"' :: (escapeChars k.data ++ '"' :: (':' :: (' ' :: (renderJson ind v ++ rest)))) := by
    simp [renderJson.renderField, quoteChars]
  have hv2 : parseJsonVal f (' ' :: (renderJson ind v ++ rest)) = some (v, rest) := by
    rw [show (' ' :: (renderJson ind v ++ rest))
        = [' '] ++ (renderJson ind v ++ rest) from rfl,
      parseJsonVal_ws [' '] _ _ (by intro c hc; simp at hc; subst hc; rfl)]
    exact hv ind rest f (by omega) hind
  have hcol : skipJsonWs (':' :: (' ' :: (renderJson ind v ++ rest)))
      = ':' :: (' ' :: (renderJson ind v ++ rest)) :=
    skipJsonWs_cons_of_not _ _ (by decide)
  rw [hren, parseJsonVal.parseObjField, skipJsonWs_cons_of_not '"' _ (by decide)]
  simp [parseStrBody_escape k.data, hcol, hv2]

theorem objRest_parses (ind : List Char) (hind : ∀ c ∈ ind, jsonWs c = true) :
    ∀ (kvs : List (String × Json)), (∀ kv ∈ kvs, ParsesBack kv.2) →
      ∀ (rest : List Char) (fuel : Nat), jsonFuel.fuelFields kvs ≤ fuel →
        parseJsonVal.parseObjRest fuel
          (renderJson.renderObjRest (ind ++ twoSpaces) kvs ++ '\n' :: ind ++ '\x7d' :: rest)
        = some (kvs, rest) := by
  intro kvs
  induction kvs with
  | nil =>
    intro _ rest fuel hfuel
    have h1 : jsonFuel.fuelFields ([] : List (String × Json)) = 1 := rfl
    obtain ⟨f, rfl⟩ : ∃ f, fuel = f + 1 := ⟨fuel - 1, by omega⟩
    have hren : renderJson.renderObjRest (ind ++ twoSpaces) [] ++ '\n' :: ind ++ '\x7d' :: rest
        = ('\n' :: ind) ++ ('\x7d' :: rest) := by
      simp [renderJson.renderObjRest]
    rw [hren, parseJsonVal.parseObjRest,
      skipJsonWs_ws_front ('\n' :: ind) _ (wsList_newline_ind ind hind),
      skipJsonWs_cons_of_not '\x7d' _ (by decide)]
    simp
  | cons kv kvt ih =>
    intro hmem rest fuel hfuel
    obtain ⟨kk, vv⟩ := kv
    have h1 : jsonFuel.fuelFields ((kk, vv) :: kvt)
        = 2 + jsonFuel vv + jsonFuel.fuelFields kvt := rfl
    obtain ⟨f, rfl⟩ : ∃ f, fuel = f + 1 := ⟨fuel - 1, by omega⟩
    have hren : renderJson.renderObjRest (ind ++ twoSpaces) ((kk, vv) :: kvt)
          ++ '\n' :: ind ++ '\x7d' :: rest
        = ',' :: (('\n' :: (ind ++ twoSpaces))
            ++ (renderJson.renderField (ind ++ twoSpaces) (kk, vv)
              ++ (renderJson.renderObjRest (ind ++ twoSpaces) kvt
                ++ '\n' :: ind ++ '\x7d' :: rest))) := by
      simp [renderJson.renderObjRest]
    have hfld : parseJsonVal.parseObjField f (('\n' :: (ind ++ twoSpaces))
        ++ (renderJson.renderField (ind ++ twoSpaces) (kk, vv)
          ++ (renderJson.renderObjRest (ind ++ twoSpaces) kvt
            ++ '\n' :: ind ++ '\x7d' :: rest)))
        = some ((kk, vv), renderJson.renderObjRest (ind ++ twoSpaces) kvt
            ++ '\n' :: ind ++ '\x7d' :: rest) := by
      rw [parseObjField_ws _ _ _ (wsList_newline_ind _ (wsInd_twoSpaces ind hind))]
      exact objField_parses (ind ++ twoSpaces) (wsInd_twoSpaces ind hind) kk vv
        (hmem (kk, vv) (List.mem_cons_self _ _)) _ f (by omega)
    have hrest : parseJsonVal.parseObjRest f
        (renderJson.renderObjRest (ind ++ twoSpaces) kvt ++ '\n' :: ind ++ '\x7d' :: rest)
        = some (kvt, rest) :=
      ih (fun y hy => hmem y (List.mem_cons_of_mem _ hy)) rest f (by omega)
    rw [hren, parseJsonVal.parseObjRest, skipJsonWs_cons_of_not ',' _ (by decide)]
    simp only [List.cons_append, List.append_assoc] at hfld hrest ⊢
    simp [hfld, hrest]

theorem parsesBack_all : ∀ j, ParsesBack j := by
  refine json_induction ParsesBack ?_ ?_ ?_
  · intro s ind rest fuel hfuel hind
    have h1 : jsonFuel (.str s) = 1 := rfl
    obtain ⟨f, rfl⟩ : ∃ f, fuel = f + 1 := ⟨fuel - 1, by omega⟩
    have hren : renderJson ind (.str s) ++ rest
        = '"' :: (escapeChars s.data ++ '"' :: rest) := by
      simp [renderJson, quoteChars]
    rw [hren, parseJsonVal, skipJsonWs_cons_of_not '"' _ (by decide)]
    simp [parseStrBody_escape s.data]
  · intro xs hxs ind rest fuel hfuel hind
    cases xs with
    | nil =>
      have h1 : jsonFuel (.arr []) = 2 := rfl
      obtain ⟨f, rfl⟩ : ∃ f, fuel = f + 1 := ⟨fuel - 1, by omega⟩
      have hren : renderJson ind (.arr []) ++ rest = '[' :: (']' :: rest) := by
        simp [renderJson]
      have h2 : skipJsonWs (']' :: rest) = ']' :: rest :=
        skipJsonWs_cons_of_not _ _ (by decide)
      rw [hren, parseJsonVal, skipJsonWs_cons_of_not '[' _ (by decide)]
      simp [h2]
    | cons x xt =>
      have h1 : jsonFuel (.arr (x :: xt))
          = 1 + (1 + jsonFuel x + jsonFuel.fuelItems xt) := rfl
      obtain ⟨f, rfl⟩ : ∃ f, fuel = f + 1 := ⟨fuel - 1, by omega⟩
      have hren : renderJson ind (.arr (x :: xt)) ++ rest
          = '[' :: (('\n' :: (ind ++ twoSpaces))
              ++ (renderJson (ind ++ twoSpaces) x
                ++ (renderJson.renderArrRest (ind ++ twoSpaces) xt
                  ++ '\n' :: ind ++ ']' :: rest))) := by
        simp [renderJson]
      have hskip : skipJsonWs (('\n' :: (ind ++ twoSpaces))
          ++ (renderJson (ind ++ twoSpaces) x
            ++ (renderJson.renderArrRest (ind ++ twoSpaces) xt
              ++ '\n' :: ind ++ ']' :: rest)))
          = renderJson (ind ++ twoSpaces) x
            ++ (renderJson.renderArrRest (ind ++ twoSpaces) xt
              ++ '\n' :: ind ++ ']' :: rest) := by
        rw [skipJsonWs_ws_front _ _ (wsList_newline_ind _ (wsInd_twoSpaces ind hind)),
          skipJsonWs_renderJson]
      have hx : parseJsonVal f (renderJson (ind ++ twoSpaces) x
          ++ (renderJson.renderArrRest (ind ++ twoSpaces) xt
            ++ '\n' :: ind ++ ']' :: rest))
          = some (x, renderJson.renderArrRest (ind ++ twoSpaces) xt
              ++ '\n' :: ind ++ ']' :: rest) :=
        hxs x (List.mem_cons_self _ _) (ind ++ twoSpaces) _ f (by omega)
          (wsInd_twoSpaces ind hind)
      have hrest : parseJsonVal.parseArrRest f
          (renderJson.renderArrRest (ind ++ twoSpaces) xt ++ '\n' :: ind ++ ']' :: rest)
          = some (xt, rest) :=
        arrRest_parses ind hind xt (fun y hy => hxs y (List.mem_cons_of_mem _ hy))
          rest f (by omega)
      rw [hren, parseJsonVal, skipJsonWs_cons_of_not '[' _ (by decide)]
      rcases renderJson_head (ind ++ twoSpaces) x with ⟨tl, hh | hh | hh⟩ <;>
        (rw [hh] at hskip hx ⊢
         try simp only [List.cons_append, List.append_assoc] at hskip
         try simp only [List.cons_append, List.append_assoc] at hx
         try simp only [List.cons_append, List.append_assoc] at hrest
         try simp only [List.cons_append, List.append_assoc]
         simp [hskip, hx, hrest])
  · intro kvs hkvs ind rest fuel hfuel hind
    cases kvs with
    | nil =>
      have h1 : jsonFuel (.obj []) = 2 := rfl
      obtain ⟨f, rfl⟩ : ∃ f, fuel = f + 1 := ⟨fuel - 1, by omega⟩
      have hren : renderJson ind (.obj []) ++ rest = '\x7b' :: ('\x7d' :: rest) := by
        simp [renderJson]
      have h2 : skipJsonWs ('\x7d' :: rest) = '\x7d' :: rest :=
        skipJsonWs_cons_of_not _ _ (by decide)
      rw [hren, parseJsonVal, skipJsonWs_cons_of_not '\x7b' _ (by decide)]
      simp [h2]
    | cons kv kvt =>
      obtain ⟨kk, vv⟩ := kv
      have h1 : jsonFuel (.obj ((kk, vv) :: kvt))
          = 1 + (2 + jsonFuel vv + jsonFuel.fuelFields kvt) := rfl
      obtain ⟨f, rfl⟩ : ∃ f, fuel = f + 1 := ⟨fuel - 1, by omega⟩
      have hren : renderJson ind (.obj ((kk, vv) :: kvt)) ++ rest
          = '\x7b' :: (('\n' :: (ind ++ twoSpaces))
              ++ (renderJson.renderField (ind ++ twoSpaces) (kk, vv)
                ++ (renderJson.renderObjRest (ind ++ twoSpaces) kvt
                  ++ '\n' :: ind ++ '\x7d' :: rest))) := by
        simp [renderJson]
      have hfldren : renderJson.renderField (ind ++ twoSpaces) (kk, vv)
            ++ (renderJson.renderObjRest (ind ++ twoSpaces) kvt
              ++ '\n' :: ind ++ '\x7d' :: rest)
          = '"' :: (escapeChars kk.data
              ++ '"' :: (':' :: (' ' :: (renderJson (ind ++ twoSpaces) vv
                ++ (renderJson.renderObjRest (ind ++ twoSpaces) kvt
                  ++ '\n' :: ind ++ '\x7d' :: rest))))) := by
        simp [renderJson.renderField, quoteChars]
      have hskip : skipJsonWs (('\n' :: (ind ++ twoSpaces))
          ++ (renderJson.renderField (ind ++ twoSpaces) (kk, vv)
            ++ (renderJson.renderObjRest (ind ++ twoSpaces) kvt
              ++ '\n' :: ind ++ '\x7d' :: rest)))
          = renderJson.renderField (ind ++ twoSpaces) (kk, vv)
            ++ (renderJson.renderObjRest (ind ++ twoSpaces) kvt
              ++ '\n' :: ind ++ '\x7d' :: rest) := by
        rw [skipJsonWs_ws_front _ _ (wsList_newline_ind _ (wsInd_twoSpaces ind hind)),
          hfldren, skipJsonWs_cons_of_not '"' _ (by decide)]
      have hfld : parseJsonVal.parseObjField f
          (renderJson.renderField (ind ++ twoSpaces) (kk, vv)
            ++ (renderJson.renderObjRest (ind ++ twoSpaces) kvt
              ++ '\n' :: ind ++ '\x7d' :: rest))
          = some ((kk, vv), renderJson.renderObjRest (ind ++ twoSpaces) kvt
              ++ '\n' :: ind ++ '\x7d' :: rest) :=
        objField_parses (ind ++ twoSpaces) (wsInd_twoSpaces ind hind) kk vv
          (hkvs (kk, vv) (List.mem_cons_self _ _)) _ f (by omega)
      have hrest : parseJsonVal.parseObjRest f
          (renderJson.renderObjRest (ind ++ twoSpaces) kvt
            ++ '\n' :: ind ++ '\x7d' :: rest)
          = some (kvt, rest) :=
        objRest_parses ind hind kvt (fun y hy => hkvs y (List.mem_cons_of_mem _ hy))
          rest f (by omega)
      rw [hren, parseJsonVal, skipJsonWs_cons_of_not '\x7b' _ (by decide)]
      rw [hfldren] at hskip hfld ⊢
      try simp only [List.cons_append, List.append_assoc] at hskip
      try simp only [List.cons_append, List.append_assoc] at hfld
      try simp only [List.cons_append, List.append_assoc] at hrest
      try simp only [List.cons_append, List.append_assoc]
      simp [hskip, hfld, hrest]

theorem fuelItems_le (ind : List Char) :
    ∀ (xs : List Json), (∀ x ∈ xs, ∀ ind2 : List Char,
        jsonFuel x ≤ (renderJson ind2 x).length + 1) →
      jsonFuel.fuelItems xs ≤ (renderJson.renderArrRest ind xs).length + 1 := by
  intro xs
  induction xs with
  | nil => intro _; simp [jsonFuel.fuelItems, renderJson.renderArrRest]
  | cons x xt ih =>
    intro h
    have hx := h x (List.mem_cons_self _ _) ind
    have ht := ih fun y hy ind2 => h y (List.mem_cons_of_mem _ hy) ind2
    simp only [jsonFuel.fuelItems, renderJson.renderArrRest, List.length_cons,
      List.length_append]
    omega

theorem fuelFields_le (ind : List Char) :
    ∀ (kvs : List (String × Json)), (∀ kv ∈ kvs, ∀ ind2 : List Char,
        jsonFuel kv.2 ≤ (renderJson ind2 kv.2).length + 1) →
      jsonFuel.fuelFields kvs ≤ (renderJson.renderObjRest ind kvs).length + 1 := by
  intro kvs
  induction kvs with
  | nil => intro _; simp [jsonFuel.fuelFields, renderJson.renderObjRest]
  | cons kv kvt ih =>
    intro h
    obtain ⟨kk, vv⟩ := kv
    have hv := h (kk, vv) (List.mem_cons_self _ _) ind
    have ht := ih fun y hy ind2 => h y (List.mem_cons_of_mem _ hy) ind2
    simp only [jsonFuel.fuelFields, renderJson.renderObjRest, renderJson.renderField,
      quoteChars, List.length_cons, List.length_append] at hv ht ⊢
    omega

theorem jsonFuel_le_render : ∀ (j : Json) (ind : List Char),
    jsonFuel j ≤ (renderJson ind j).length + 1 := by
  refine json_induction (fun j => ∀ ind : List Char,
    jsonFuel j ≤ (renderJson ind j).length + 1) ?_ ?_ ?_
  · intro s ind
    simp [jsonFuel, renderJson, quoteChars]
  · intro xs hxs ind
    cases xs with
    | nil => simp [jsonFuel, jsonFuel.fuelItems, renderJson]
    | cons x xt =>
      have hx := hxs x (List.mem_cons_self _ _) (ind ++ twoSpaces)
      have ht := fuelItems_le (ind ++ twoSpaces) xt
        fun y hy ind2 => hxs y (List.mem_cons_of_mem _ hy) ind2
      simp only [jsonFuel, jsonFuel.fuelItems, renderJson, List.length_cons,
        List.length_append]
      omega
  · intro kvs hkvs ind
    cases kvs with
    | nil => simp [jsonFuel, jsonFuel.fuelFields, renderJson]
    | cons kv kvt =>
      obtain ⟨kk, vv⟩ := kv
      have hv := hkvs (kk, vv) (List.mem_cons_self _ _) (ind ++ twoSpaces)
      have ht := fuelFields_le (ind ++ twoSpaces) kvt
        fun y hy ind2 => hkvs y (List.mem_cons_of_mem _ hy) ind2
      simp only [jsonFuel, jsonFuel.fuelFields, renderJson, renderJson.renderField,
        quoteChars, List.length_cons, List.length_append] at hv ht ⊢
      omega

theorem strListOfJson_go (l : List String) :
    strListOfJson.go (l.map Json.str) = some l := by
  induction l with
  | nil => rfl
  | cons s t ih => simp [strListOfJson.go, ih]

theorem strListOfJson_map (l : List String) :
    strListOfJson (.arr (l.map Json.str)) = some l := by
  simp [strListOfJson, strListOfJson_go]

theorem personalOfJson_toJson (p : PersonalInfo) :
    personalOfJson (personalToJson p) = some p := by
  cases p
  rfl

theorem experienceOfJson_toJson (e : Experience) :
    experienceOfJson (experienceToJson e) = some e := by
  cases e
  simp [experienceToJson, experienceOfJson, strListOfJson_map]

theorem educationOfJson_toJson (e : Education) :
    educationOfJson (educationToJson e) = some e := by
  cases e
  rfl

theorem projectOfJson_toJson (p : Project) :
    projectOfJson (projectToJson p) = some p := by
  cases p
  simp [projectToJson, projectOfJson, strListOfJson_map]

theorem skillBlockOfJson_toJson (b : SkillBlock) :
    skillBlockOfJson (skillBlockToJson b) = some b := by
  cases b
  rfl

theorem listOfJson_map {α : Type} (dec : Json → Option α) (enc : α → Json)
    (h : ∀ a, dec (enc a) = some a) :
    ∀ l : List α, listOfJson dec (l.map enc) = some l := by
  intro l
  induction l with
  | nil => rfl
  | cons a t ih => simp [listOfJson, h a, ih]

theorem docOfJson_toJson (doc : ResumeDocument) :
    docOfJson (docToJson doc) = some doc := by
  cases doc
  simp [docToJson, docOfJson, personalOfJson_toJson,
    listOfJson_map experienceOfJson experienceToJson experienceOfJson_toJson,
    listOfJson_map educationOfJson educationToJson educationOfJson_toJson,
    listOfJson_map projectOfJson projectToJson projectOfJson_toJson,
    listOfJson_map skillBlockOfJson skillBlockToJson skillBlockOfJson_toJson]

/-- C8: the export operation serializes exactly the five fields
personal, experiences, educations, projects, skills (in that key order)
as pretty-printed JSON with two-space indentation under the fixed file
name `resume-builder-export.json`, and parsing that text back yields
first the exact JSON value and then a document equal to the source
document — parse after serialize is the identity on the exported
fields, so all field values, list lengths and list orders survive. -/
theorem exportAsJson_roundtrip (doc : ResumeDocument) :
    parseJsonText (exportAsJson doc) = some (docToJson doc)
  ∧ (parseJsonText (exportAsJson doc)).bind docOfJson = some doc
  ∧ jsonKeys (docToJson doc)
      = ["personal", "experiences", "educations", "projects", "skills"]
  ∧ exportFileName = "resume-builder-export.json" := by
  have hdata : (exportAsJson doc).data = renderJson [] (docToJson doc) := rfl
  have hfuel : jsonFuel (docToJson doc)
      ≤ (renderJson [] (docToJson doc)).length + 1 :=
    jsonFuel_le_render (docToJson doc) []
  have hp : parseJsonVal ((renderJson [] (docToJson doc)).length + 1)
      (renderJson [] (docToJson doc)) = some (docToJson doc, []) := by
    have h := parsesBack_all (docToJson doc) [] []
      ((renderJson [] (docToJson doc)).length + 1) hfuel (by simp)
    rwa [List.append_nil] at h
  have hparse : parseJsonText (exportAsJson doc) = some (docToJson doc) := by
    rw [parseJsonText, hdata, hp]
    simp [skipJsonWs]
  refine ⟨hparse, ?_, rfl, rfl⟩
  rw [hparse]
  simp [docOfJson_toJson doc]
